import Mathlib

/-!
Shallow embedding of the selection-state engine of
`src/apps/web/src/app/new/page.tsx` (the "new project" wizard of
controlforge), together with proofs of the specification's claims.

JavaScript strings are modelled as Lean `String`; JS code-unit string
comparison (`<` on strings, used by `Array.prototype.sort()` without a
comparator and modelling `localeCompare` on the ASCII identifiers in
scope) is modelled by lexicographic comparison of the character lists.
JS objects used as keyed maps (`Record<string, T>`) are modelled as
association lists in key-insertion order, which is the enumeration
order of `Object.values`; object keys are unique, so update-in-place
keeps a key's position and a fresh key is appended at the end, exactly
as in JS.
-/

/-- Lexicographic strict comparison of character lists, modelling the
JS code-unit order on strings. -/
def chLt (a b : List Char) : Bool :=
  match a, b with
  | [], [] => false
  | [], _ :: _ => true
  | _ :: _, [] => false
  | x :: xs, y :: ys => if x < y then true else if y < x then false else chLt xs ys

/-- `strLeB a b` says `a` sorts no later than `b` in JS default string
sort order: the comparator-less `Array.prototype.sort()` orders by
code units, and a stable sort by this total preorder reproduces it. -/
def strLeB (a b : String) : Bool := !(chLt b.data a.data)

/-- `latestVersion(versions)` from page.tsx line 13:
`[...versions].sort().slice(-1)[0] || ""` — sort a copy in JS default
(lexicographic) order, take the last element, and fall back to `""`
when the array is empty (`slice(-1)[0]` is `undefined`, which is falsy;
an empty-string last element is also falsy and likewise yields `""`,
i.e. itself). -/
def latestVersion (versions : List String) : String :=
  (versions.mergeSort strLeB).getLastD ""

/-- Lookup in a JS-object-as-map modelled as an association list. -/
def alookup {α : Type} : List (String × α) → String → Option α
  | [], _ => none
  | e :: t, k => if e.1 = k then some e.2 else alookup t k

/-- `delete obj[k]`: remove the key (keys are unique in a JS object;
removing every occurrence is the matching total extension). -/
def aremove {α : Type} : List (String × α) → String → List (String × α)
  | [], _ => []
  | e :: t, k => if e.1 = k then aremove t k else e :: aremove t k

/-- `{...obj, [k]: v}` / `obj[k] = v`: replace the value at an existing
key in place (keeping its position in insertion order), or append a
fresh key at the end. -/
def ainsert {α : Type} : List (String × α) → String → α → List (String × α)
  | [], k, v => [(k, v)]
  | e :: t, k, v => if e.1 = k then (k, v) :: t else e :: ainsert t k v

/-- `SelectedPack` from page.tsx line 7. -/
structure SelectedPack where
  domain : String
  pack_id : String
  version : String
deriving DecidableEq, Repr

/-- The Pack Registry: `selectedPacks : Record<string, SelectedPack>`,
keyed by `domain/pack_id` (page.tsx line 30). -/
def PackRegistry : Type := List (String × SelectedPack)

instance : DecidableEq PackRegistry := by
  unfold PackRegistry
  infer_instance

instance : Repr PackRegistry := by
  unfold PackRegistry
  infer_instance

/-- The composite key `` `${domain}/${pack_id}` ``. -/
def packKey (domain pack_id : String) : String := domain ++ "/" ++ pack_id

/-- `togglePack` from page.tsx lines 116–124: if the key is present
(`if (next[k])`, and a present value is an object, hence truthy),
delete it; otherwise insert `{domain, pack_id, version: latestVersion(versions)}`. -/
def togglePack (prev : PackRegistry) (domain pack_id : String)
    (versions : List String) : PackRegistry :=
  let k := packKey domain pack_id
  if (alookup prev k).isSome then aremove prev k
  else ainsert prev k ⟨domain, pack_id, latestVersion versions⟩

/-- `setPackVersion` from page.tsx lines 126–129:
`{...prev, [k]: { domain, pack_id, version }}`. -/
def setPackVersion (prev : PackRegistry) (domain pack_id version : String) :
    PackRegistry :=
  let k := packKey domain pack_id
  ainsert prev k ⟨domain, pack_id, version⟩

theorem alookup_ainsert {α : Type} (l : List (String × α)) (k : String) (v : α) :
    alookup (ainsert l k v) k = some v := by
  induction l with
  | nil => simp [ainsert, alookup]
  | cons e t ih =>
    by_cases h : e.1 = k
    · simp [ainsert, h, alookup]
    · simp [ainsert, h, alookup, ih]

theorem alookup_ainsert_ne {α : Type} (l : List (String × α)) (k k2 : String)
    (v : α) (hne : k2 ≠ k) : alookup (ainsert l k v) k2 = alookup l k2 := by
  have hkk2 : ¬(k = k2) := fun h => hne h.symm
  induction l with
  | nil => simp [ainsert, alookup, hkk2]
  | cons e t ih =>
    by_cases h : e.1 = k
    · simp [ainsert, h, alookup, hkk2]
    · simp [ainsert, h, alookup, ih]

theorem alookup_aremove {α : Type} (l : List (String × α)) (k : String) :
    alookup (aremove l k) k = none := by
  induction l with
  | nil => simp [aremove, alookup]
  | cons e t ih =>
    by_cases h : e.1 = k
    · simp [aremove, h, ih]
    · simp [aremove, h, alookup, ih]

theorem alookup_aremove_ne {α : Type} (l : List (String × α)) (k k2 : String)
    (hne : k2 ≠ k) : alookup (aremove l k) k2 = alookup l k2 := by
  have hkk2 : ¬(k = k2) := fun h => hne h.symm
  induction l with
  | nil => simp [aremove]
  | cons e t ih =>
    by_cases h : e.1 = k
    · simp [aremove, h, alookup, hkk2, ih]
    · simp [aremove, h, alookup, ih]

theorem aremove_of_absent {α : Type} (l : List (String × α)) (k : String)
    (h : alookup l k = none) : aremove l k = l := by
  induction l with
  | nil => simp [aremove]
  | cons e t ih =>
    by_cases he : e.1 = k
    · simp [alookup, he] at h
    · simp [alookup, he] at h
      simp [aremove, he, ih h]

theorem ainsert_of_absent {α : Type} (l : List (String × α)) (k : String) (v : α)
    (h : alookup l k = none) : ainsert l k v = l ++ [(k, v)] := by
  induction l with
  | nil => simp [ainsert]
  | cons e t ih =>
    by_cases he : e.1 = k
    · simp [alookup, he] at h
    · simp [alookup, he] at h
      simp [ainsert, he, ih h]

theorem chLt_cons_iff {x y : Char} {xs ys : List Char} :
    chLt (x :: xs) (y :: ys) = true ↔ x < y ∨ (x = y ∧ chLt xs ys = true) := by
  by_cases h1 : x < y
  · simp [chLt, h1]
  · by_cases h2 : y < x
    · have hne : ¬x = y := by
        rintro rfl
        exact absurd h2 (lt_irrefl x)
      simp [chLt, h1, h2, hne]
    · have hxy : x = y := le_antisymm (not_lt.mp h2) (not_lt.mp h1)
      simp [chLt, h1, h2, hxy]

theorem chLt_irrefl (a : List Char) : chLt a a = false := by
  induction a with
  | nil => rfl
  | cons x xs ih => simp [chLt, lt_irrefl, ih]

theorem chLt_trans {a b c : List Char} (h1 : chLt a b = true)
    (h2 : chLt b c = true) : chLt a c = true := by
  induction a generalizing b c with
  | nil =>
    cases b with
    | nil => simp [chLt] at h1
    | cons y ys =>
      cases c with
      | nil => simp [chLt] at h2
      | cons z zs => simp [chLt]
  | cons x xs ih =>
    cases b with
    | nil => simp [chLt] at h1
    | cons y ys =>
      cases c with
      | nil => simp [chLt] at h2
      | cons z zs =>
        rw [chLt_cons_iff] at h1 h2 ⊢
        rcases h1 with hxy | ⟨rfl, h1⟩
        · rcases h2 with hyz | ⟨rfl, h2⟩
          · exact Or.inl (lt_trans hxy hyz)
          · exact Or.inl hxy
        · rcases h2 with hyz | ⟨rfl, h2⟩
          · exact Or.inl hyz
          · exact Or.inr ⟨rfl, ih h1 h2⟩

theorem chLt_connex {a b : List Char} (h1 : chLt a b = false)
    (h2 : chLt b a = false) : a = b := by
  induction a generalizing b with
  | nil =>
    cases b with
    | nil => rfl
    | cons y ys => simp [chLt] at h1
  | cons x xs ih =>
    cases b with
    | nil => simp [chLt] at h2
    | cons y ys =>
      have h1' : ¬(x < y ∨ (x = y ∧ chLt xs ys = true)) := by
        rw [← @chLt_cons_iff x y xs ys]
        simp [h1]
      have h2' : ¬(y < x ∨ (y = x ∧ chLt ys xs = true)) := by
        rw [← @chLt_cons_iff y x ys xs]
        simp [h2]
      push_neg at h1' h2'
      have hxy : x = y := le_antisymm h2'.1 h1'.1
      subst hxy
      have hxs : chLt xs ys = false := by
        cases hv : chLt xs ys
        · rfl
        · exact absurd hv (h1'.2 rfl)
      have hys : chLt ys xs = false := by
        cases hv : chLt ys xs
        · rfl
        · exact absurd hv (h2'.2 rfl)
      rw [ih hxs hys]

theorem strLeB_refl (a : String) : strLeB a a = true := by
  simp [strLeB, chLt_irrefl]

theorem strLeB_trans (a b c : String) (h1 : strLeB a b = true)
    (h2 : strLeB b c = true) : strLeB a c = true := by
  simp only [strLeB, Bool.not_eq_true'] at h1 h2 ⊢
  cases hca : chLt c.data a.data
  · rfl
  · cases hbc : chLt b.data c.data
    · have hb : b.data = c.data := chLt_connex hbc h2
      rw [hb] at h1
      rw [h1] at hca
      exact hca.symm
    · have hba : chLt b.data a.data = true := chLt_trans hbc hca
      rw [h1] at hba
      exact hba.symm

theorem strLeB_total (a b : String) : (strLeB a b || strLeB b a) = true := by
  simp only [strLeB, Bool.not_eq_true', Bool.or_eq_true]
  cases h1 : chLt b.data a.data
  · exact Or.inl rfl
  · cases h2 : chLt a.data b.data
    · exact Or.inr rfl
    · have := chLt_trans h1 h2
      rw [chLt_irrefl] at this
      exact absurd this (by simp)

theorem pairwise_strLeB_getLastD : ∀ (l : List String) (d : String),
    l.Pairwise (fun a b => strLeB a b = true) →
    ∀ v ∈ l, strLeB v (l.getLastD d) = true := by
  intro l
  induction l with
  | nil =>
    intro d _
    simp
  | cons x xs ih =>
    intro d hs
    cases hs with
    | cons hx hxs =>
      intro v hv
      rw [List.getLastD_cons]
      rcases List.mem_cons.mp hv with rfl | hv2
      · rcases List.mem_cons.mp (List.getLastD_mem_cons xs v) with he | hm
        · rw [he]
          exact strLeB_refl v
        · exact hx _ hm
      · exact ih x hxs v hv2

/-- `latestVersion` really is the lexicographic maximum of a non-empty
version list: it is one of the supplied versions and every supplied
version sorts no later than it. -/
theorem latestVersion_is_lex_max (versions : List String) (h : versions ≠ []) :
    latestVersion versions ∈ versions ∧
      ∀ v ∈ versions, strLeB v (latestVersion versions) = true := by
  have hperm := List.mergeSort_perm versions strLeB
  have hs := List.sorted_mergeSort strLeB_trans strLeB_total versions
  have hne : versions.mergeSort strLeB ≠ [] := by
    intro h0
    rw [h0] at hperm
    exact h hperm.nil_eq.symm
  constructor
  · have hm : (versions.mergeSort strLeB).getLastD "" ∈ versions.mergeSort strLeB := by
      cases hcase : versions.mergeSort strLeB with
      | nil => exact absurd hcase hne
      | cons x xs =>
        rw [List.getLastD_cons]
        exact List.getLastD_mem_cons xs x
    exact hperm.mem_iff.mp hm
  · intro v hv
    have hv2 : v ∈ versions.mergeSort strLeB := hperm.mem_iff.mpr hv
    exact pairwise_strLeB_getLastD _ "" hs v hv2

theorem chLt_asymm {a b : List Char} (h : chLt a b = true) : chLt b a = false := by
  cases hv : chLt b a
  · rfl
  · have hcontra := chLt_trans h hv
    rw [chLt_irrefl] at hcontra
    exact hcontra.symm

theorem string_eq_of_data_eq {a b : String} (h : a.data = b.data) : a = b := by
  cases a
  cases b
  simp only at h
  rw [h]

/-- `Pack` catalog entry, with the fields the wizard logic reads;
`order` and `name` are optional in the raw catalog data. -/
structure Pack where
  domain : String
  pack_id : String
  name : Option String
  order : Option Int
  versions : List String
deriving DecidableEq, Repr

/-- `String(p.name || p.pack_id)`: the display name falls back to the
pack id when `name` is absent or empty (JS falsy). -/
def displayName (p : Pack) : String :=
  match p.name with
  | some n => if n = "" then p.pack_id else n
  | none => p.pack_id

/-- `Number(p.order ?? 9999)`: a missing `order` is treated as 9999. -/
def orderValue (p : Pack) : Int := p.order.getD 9999

/-- Three-way code-point string comparison, standing in for
`localeCompare`; the two agree on the plain ASCII identifiers in
scope, and on distinct strings this model never returns 0. -/
def strCmp (a b : String) : Int :=
  if chLt a.data b.data then -1 else if chLt b.data a.data then 1 else 0

/-- The comparator passed to `sort` in `packsForDisplay`
(page.tsx lines 63–69). -/
def packCmp (a b : Pack) : Int :=
  if a.domain ≠ b.domain then strCmp a.domain b.domain
  else if orderValue a ≠ orderValue b then orderValue a - orderValue b
  else strCmp (displayName a) (displayName b)

/-- `a` sorts no later than `b` under the comparator. JS
`Array.prototype.sort` is stable (ES2019), and with a consistent
comparator a stable sort is determined by this total preorder, so
`List.mergeSort` by `packLe` models `[...packs].sort(comparator)`. -/
def packLe (a b : Pack) : Bool := packCmp a b ≤ 0

/-- `packsForDisplay` (page.tsx lines 62–70), as a function of the
loaded pack catalog. -/
def packsForDisplay (packs : List Pack) : List Pack :=
  packs.mergeSort packLe

/-- The ordering described by the spec: ascending by domain
(lexicographic), then ascending by `order` (missing treated as 9999),
then ascending by display name (`name` falling back to `pack_id`). -/
def packKeyLe (a b : Pack) : Bool :=
  chLt a.domain.data b.domain.data ||
    (decide (a.domain = b.domain) &&
      (decide (orderValue a < orderValue b) ||
        (decide (orderValue a = orderValue b) &&
          !(chLt (displayName b).data (displayName a).data))))

theorem packKeyLe_iff (a b : Pack) : packKeyLe a b = true ↔
    chLt a.domain.data b.domain.data = true ∨
      (a.domain = b.domain ∧ (orderValue a < orderValue b ∨
        (orderValue a = orderValue b ∧
          chLt (displayName b).data (displayName a).data = false))) := by
  simp [packKeyLe, Bool.or_eq_true, Bool.and_eq_true, Bool.not_eq_true']

theorem packLe_eq_packKeyLe (a b : Pack) : packLe a b = packKeyLe a b := by
  simp only [packLe, packCmp, packKeyLe, strCmp]
  by_cases hd : a.domain = b.domain
  · by_cases ho : orderValue a = orderValue b
    · cases h1 : chLt (displayName a).data (displayName b).data
      · cases h2 : chLt (displayName b).data (displayName a).data
        · simp [hd, ho, chLt_irrefl, h1, h2]
        · simp [hd, ho, chLt_irrefl, h1, h2]
      · simp [hd, ho, chLt_irrefl, h1, chLt_asymm h1]
    · by_cases hlt : orderValue a < orderValue b
      · have hle : orderValue a - orderValue b ≤ 0 := by omega
        simp [hd, ho, chLt_irrefl, hlt, hle]
      · have hle : ¬(orderValue a - orderValue b ≤ 0) := by omega
        simp [hd, ho, chLt_irrefl, hlt, hle]
  · cases h1 : chLt a.domain.data b.domain.data
    · cases h2 : chLt b.domain.data a.domain.data
      · exact absurd (string_eq_of_data_eq (chLt_connex h1 h2)) hd
      · simp [hd, h1, h2]
    · simp [hd, h1]

theorem chLt_false_trans {a b c : List Char} (h1 : chLt b a = false)
    (h2 : chLt c b = false) : chLt c a = false := by
  cases hv : chLt c a
  · rfl
  · cases hbc : chLt b c
    · rw [chLt_connex hbc h2] at h1
      simp [h1] at hv
    · have hba := chLt_trans hbc hv
      simp [hba] at h1

theorem packKeyLe_trans (a b c : Pack) (h1 : packKeyLe a b = true)
    (h2 : packKeyLe b c = true) : packKeyLe a c = true := by
  rw [packKeyLe_iff] at h1 h2 ⊢
  rcases h1 with hd1 | ⟨hd1, hi1⟩
  · rcases h2 with hd2 | ⟨hd2, hi2⟩
    · exact Or.inl (chLt_trans hd1 hd2)
    · rw [hd2] at hd1
      exact Or.inl hd1
  · rcases h2 with hd2 | ⟨hd2, hi2⟩
    · rw [← hd1] at hd2
      exact Or.inl hd2
    · refine Or.inr ⟨hd1.trans hd2, ?_⟩
      rcases hi1 with ho1 | ⟨ho1, hn1⟩
      · rcases hi2 with ho2 | ⟨ho2, hn2⟩
        · exact Or.inl (lt_trans ho1 ho2)
        · exact Or.inl (by omega)
      · rcases hi2 with ho2 | ⟨ho2, hn2⟩
        · exact Or.inl (by omega)
        · exact Or.inr ⟨by omega, chLt_false_trans hn1 hn2⟩

theorem packKeyLe_total (a b : Pack) : (packKeyLe a b || packKeyLe b a) = true := by
  rw [Bool.or_eq_true, packKeyLe_iff, packKeyLe_iff]
  by_cases hd : a.domain = b.domain
  · by_cases ho : orderValue a = orderValue b
    · cases hn : chLt (displayName b).data (displayName a).data
      · exact Or.inl (Or.inr ⟨hd, Or.inr ⟨ho, rfl⟩⟩)
      · exact Or.inr (Or.inr ⟨hd.symm, Or.inr ⟨ho.symm, chLt_asymm hn⟩⟩)
    · rcases lt_or_gt_of_ne ho with hlt | hgt
      · exact Or.inl (Or.inr ⟨hd, Or.inl hlt⟩)
      · exact Or.inr (Or.inr ⟨hd.symm, Or.inl hgt⟩)
  · cases h1 : chLt a.domain.data b.domain.data
    · cases h2 : chLt b.domain.data a.domain.data
      · exact absurd (string_eq_of_data_eq (chLt_connex h1 h2)) hd
      · exact Or.inr (Or.inl rfl)
    · exact Or.inl (Or.inl rfl)

theorem packLe_funext : packLe = packKeyLe :=
  funext fun a => funext fun b => packLe_eq_packKeyLe a b

unseal List.merge List.mergeSort in
/-- C6: `packsForDisplay` sorts the full pack list ascending by domain
(lexicographic), then ascending by `order` with a missing order
treated as 9999, then ascending by name falling back to `pack_id` when
the name is absent: the comparator's total preorder coincides
pointwise with that three-part key order (`packKeyLe`), the sorted
output is a permutation of the input that is pairwise ordered by the
key order, and the spec's concrete example
`[{safety, order 2, "B"}, {safety, order 1, "A"}, {governance, "C"}]`
sorts to `[C, A, B]`. -/
theorem packsForDisplay_sorts_by_domain_order_name :
    (∀ a b, packLe a b = packKeyLe a b) ∧
    (∀ l : List Pack, (packsForDisplay l).Perm l ∧
      (packsForDisplay l).Pairwise (fun a b => packKeyLe a b = true)) ∧
    packsForDisplay
        [⟨"safety", "pb", some "B", some 2, []⟩,
         ⟨"safety", "pa", some "A", some 1, []⟩,
         ⟨"governance", "pc", some "C", none, []⟩] =
      [⟨"governance", "pc", some "C", none, []⟩,
       ⟨"safety", "pa", some "A", some 1, []⟩,
       ⟨"safety", "pb", some "B", some 2, []⟩] := by
  refine ⟨packLe_eq_packKeyLe, fun l => ⟨List.mergeSort_perm l packLe, ?_⟩, by decide⟩
  have h : packsForDisplay l = l.mergeSort packKeyLe := by
    rw [packsForDisplay, packLe_funext]
  rw [h]
  exact List.sorted_mergeSort packKeyLe_trans packKeyLe_total l

theorem aremove_append {α : Type} (l1 l2 : List (String × α)) (k : String) :
    aremove (l1 ++ l2) k = aremove l1 k ++ aremove l2 k := by
  induction l1 with
  | nil => simp [aremove]
  | cons e t ih =>
    by_cases h : e.1 = k
    · simp [aremove, h, ih]
    · simp [aremove, h, ih]

/-- C1 (amended): toggling the same `(domain, pack_id, versions)` twice
leaves the presence and content of every other key unchanged and the
presence of the toggled key unchanged; if the toggled key was absent
the registry is restored exactly, and if it was present it ends up
present with version `latestVersion versions` — which equals its prior
content exactly when that content was not re-pinned away from
`latestVersion versions`. -/
theorem togglePack_twice (reg : PackRegistry) (domain pack_id : String)
    (versions : List String) :
    (∀ k2, k2 ≠ packKey domain pack_id →
      alookup (togglePack (togglePack reg domain pack_id versions)
          domain pack_id versions) k2 = alookup reg k2) ∧
    (alookup reg (packKey domain pack_id) = none →
      togglePack (togglePack reg domain pack_id versions)
          domain pack_id versions = reg) ∧
    (∀ e, alookup reg (packKey domain pack_id) = some e →
      alookup (togglePack (togglePack reg domain pack_id versions)
          domain pack_id versions) (packKey domain pack_id) =
        some ⟨domain, pack_id, latestVersion versions⟩) := by
  cases h : alookup reg (packKey domain pack_id) with
  | none =>
    have h1 : togglePack reg domain pack_id versions =
        ainsert reg (packKey domain pack_id)
          ⟨domain, pack_id, latestVersion versions⟩ := by
      simp [togglePack, h]
    have h2 : togglePack (ainsert reg (packKey domain pack_id)
          ⟨domain, pack_id, latestVersion versions⟩) domain pack_id versions = reg := by
      simp [togglePack, alookup_ainsert]
      rw [ainsert_of_absent reg _ _ h, aremove_append, aremove_of_absent reg _ h]
      simp [aremove]
    rw [h1, h2]
    refine ⟨fun k2 _ => rfl, fun _ => rfl, fun e he => ?_⟩
    cases he
  | some e0 =>
    have h1 : togglePack reg domain pack_id versions =
        aremove reg (packKey domain pack_id) := by
      simp [togglePack, h]
    have h2 : togglePack (aremove reg (packKey domain pack_id))
          domain pack_id versions =
        ainsert (aremove reg (packKey domain pack_id)) (packKey domain pack_id)
          ⟨domain, pack_id, latestVersion versions⟩ := by
      simp [togglePack, alookup_aremove]
    rw [h1, h2]
    refine ⟨fun k2 hk2 => ?_, fun hnone => ?_, fun e he => ?_⟩
    · rw [alookup_ainsert_ne _ _ _ _ hk2, alookup_aremove_ne _ _ _ hk2]
    · cases hnone
    · exact alookup_ainsert _ _ _

unseal List.merge List.mergeSort in
/-- C1 (counterexample to the claim as stated): from the reachable
state where `security/p1` was toggled in with versions `["1","2"]`
(pinning `"2"`) and then re-pinned to `"1"` via `setPackVersion`,
toggling `("security", "p1", ["1","2"])` twice does not restore the
toggled key's content: its version comes back as `"2"`, not `"1"`. -/
theorem togglePack_twice_counterexample :
    alookup
        (togglePack
          (togglePack
            (setPackVersion (togglePack [] "security" "p1" ["1", "2"])
              "security" "p1" "1")
            "security" "p1" ["1", "2"])
          "security" "p1" ["1", "2"])
        (packKey "security" "p1") ≠
      alookup
        (setPackVersion (togglePack [] "security" "p1" ["1", "2"])
          "security" "p1" "1")
        (packKey "security" "p1") := by decide

unseal List.merge List.mergeSort in
/-- C1 witness: the amended theorem applied at concrete inputs — the
empty registry is restored exactly by a double toggle, and a registry
holding `security/p1` at version `"2"` keeps it present at
`latestVersion ["1","2"] = "2"` after a double toggle. -/
theorem togglePack_twice_witness :
    togglePack (togglePack [] "security" "p1" ["1", "2"]) "security" "p1" ["1", "2"] = [] ∧
    alookup
        (togglePack
          (togglePack [(packKey "security" "p1",
              (⟨"security", "p1", "2"⟩ : SelectedPack))] "security" "p1" ["1", "2"])
          "security" "p1" ["1", "2"])
        (packKey "security" "p1") =
      some ⟨"security", "p1", latestVersion ["1", "2"]⟩ :=
  ⟨(togglePack_twice [] "security" "p1" ["1", "2"]).2.1 rfl,
   (togglePack_twice [(packKey "security" "p1", ⟨"security", "p1", "2"⟩)]
      "security" "p1" ["1", "2"]).2.2 ⟨"security", "p1", "2"⟩ (by decide)⟩

unseal List.merge List.mergeSort in
/-- C2: when a pack is toggled into the selection its pinned version is
the lexicographic maximum of the supplied version strings (a member of
the list that every supplied version sorts no later than), and in
particular `toggle("security", "p1", ["9","10"])` pins version `"9"`
under key `security/p1` — the lexicographic, not numeric, maximum. -/
theorem togglePack_pins_lexicographic_max :
    (∀ versions : List String, versions ≠ [] →
      latestVersion versions ∈ versions ∧
        ∀ v ∈ versions, strLeB v (latestVersion versions) = true) ∧
    alookup (togglePack [] "security" "p1" ["9", "10"]) (packKey "security" "p1") =
      some ⟨"security", "p1", "9"⟩ :=
  ⟨latestVersion_is_lex_max, by decide⟩

unseal List.merge List.mergeSort in
/-- C2 witness: the universal part applied at `["9","10"]`. -/
theorem togglePack_pins_lexicographic_max_witness :
    latestVersion ["9", "10"] ∈ ["9", "10"] ∧
      strLeB "10" (latestVersion ["9", "10"]) = true :=
  ⟨(togglePack_pins_lexicographic_max.1 ["9", "10"] (by decide)).1,
   (togglePack_pins_lexicographic_max.1 ["9", "10"] (by decide)).2 "10" (by decide)⟩

/-- C9: `setPackVersion` on a key not present in the Pack Registry
inserts a fresh entry `{domain, pack_id, version}` — the registry
really changes — and every other key's presence and content are
unaffected. -/
theorem setPackVersion_inserts_when_absent (reg : PackRegistry)
    (domain pack_id version : String)
    (h : alookup reg (packKey domain pack_id) = none) :
    alookup (setPackVersion reg domain pack_id version) (packKey domain pack_id) =
      some ⟨domain, pack_id, version⟩ ∧
    setPackVersion reg domain pack_id version ≠ reg ∧
    (∀ k2, k2 ≠ packKey domain pack_id →
      alookup (setPackVersion reg domain pack_id version) k2 = alookup reg k2) := by
  unfold setPackVersion
  refine ⟨alookup_ainsert _ _ _, ?_, fun k2 hk2 => alookup_ainsert_ne _ _ _ _ hk2⟩
  rw [ainsert_of_absent _ _ _ h]
  intro hcontra
  have hlen := congrArg List.length hcontra
  simp at hlen

/-- C9 witness: inserting `security/p1` at version `"v2"` into the
empty registry. -/
theorem setPackVersion_inserts_when_absent_witness :
    alookup (setPackVersion [] "security" "p1" "v2") (packKey "security" "p1") =
      some ⟨"security", "p1", "v2"⟩ ∧
    setPackVersion [] "security" "p1" "v2" ≠ [] :=
  ⟨(setPackVersion_inserts_when_absent [] "security" "p1" "v2" rfl).1,
   (setPackVersion_inserts_when_absent [] "security" "p1" "v2" rfl).2.1⟩

/-- C10: toggling a pack whose versions list is empty does not fail:
`latestVersion []` is the (total) fallback `""`, and the inserted
entry's pinned version is `""`. -/
theorem togglePack_empty_versions (reg : PackRegistry) (domain pack_id : String)
    (h : alookup reg (packKey domain pack_id) = none) :
    latestVersion [] = "" ∧
    alookup (togglePack reg domain pack_id []) (packKey domain pack_id) =
      some ⟨domain, pack_id, ""⟩ := by
  have hl : latestVersion [] = "" := by simp [latestVersion]
  refine ⟨hl, ?_⟩
  have h1 : togglePack reg domain pack_id [] =
      ainsert reg (packKey domain pack_id) ⟨domain, pack_id, latestVersion []⟩ := by
    simp [togglePack, h]
  rw [h1, hl]
  exact alookup_ainsert _ _ _

/-- C10 witness: toggling `("governance", "g1", [])` into the empty
registry pins version `""`. -/
theorem togglePack_empty_versions_witness :
    latestVersion [] = "" ∧
    alookup (togglePack [] "governance" "g1" []) (packKey "governance" "g1") =
      some ⟨"governance", "g1", ""⟩ :=
  togglePack_empty_versions [] "governance" "g1" rfl

/-- Tagged union for scope-answer values (spec §3: boolean, string,
string-list or number according to the owning question's type; numbers
in the catalog data are modelled as integers). -/
inductive AnswerValue where
  | bool (b : Bool)
  | str (s : String)
  | strList (l : List String)
  | num (n : Int)
deriving DecidableEq, Repr

/-- `ScopeQuestion` (spec §3); `default` is optional. -/
structure ScopeQuestion where
  id : String
  prompt : String
  type : String
  options : List String
  default : Option AnswerValue
deriving DecidableEq, Repr

/-- `UseCase` (spec §3). -/
structure UseCase where
  id : String
  name : String
  description : String
  scope_questions : List ScopeQuestion
deriving DecidableEq, Repr

/-- `Segment` (spec §3). -/
structure Segment where
  id : String
  name : String
  use_cases : List UseCase
deriving DecidableEq, Repr

/-- `Industry` (spec §3). -/
structure Industry where
  id : String
  name : String
  segments : List Segment
deriving DecidableEq, Repr

/-- The wizard-session state of `NewProjectPage` (page.tsx lines
18–37): the loaded catalogs plus the `useState` cells the selection
engine reads and writes (the viewer-modal cells are rendering-only and
out of the engine's scope). -/
structure WizardState where
  industries : List Industry
  packs : List Pack
  err : Option String
  name : String
  description : String
  industryId : String
  segmentId : String
  useCaseId : String
  answers : List (String × AnswerValue)
  selectedPacks : PackRegistry
  selectedLlms : List String
  deploymentEnvironment : String
  llmQuery : String
deriving DecidableEq, Repr

/-- The `segments` memo (page.tsx lines 51–54): children of the
matching industry, `[]` when none matches (`ind?.segments || []`). -/
def segments (s : WizardState) : List Segment :=
  match s.industries.find? (fun x => decide (x.id = s.industryId)) with
  | some ind => ind.segments
  | none => []

/-- The `useCases` memo (page.tsx lines 56–59). -/
def useCases (s : WizardState) : List UseCase :=
  match (segments s).find? (fun x => decide (x.id = s.segmentId)) with
  | some seg => seg.use_cases
  | none => []

/-- The `useCase` memo (page.tsx line 61). -/
def currentUseCase (s : WizardState) : Option UseCase :=
  (useCases s).find? (fun x => decide (x.id = s.useCaseId))

/-- The defaults object built by the `[useCaseId]` effect (page.tsx
lines 109–113): for each scope question that declares a `default`,
write it under the question's id; questions without a default
contribute no key. -/
def synthesizeDefaults (qs : List ScopeQuestion) : List (String × AnswerValue) :=
  qs.foldl (fun acc q =>
    match q.default with
    | some d => ainsert acc q.id d
    | none => acc) []

/-- `setIndustryId` together with its dependent effects, as committed
once React's render/effect cascade settles (page.tsx lines 95–100,
102–105, 107–114): setting the identical value is a no-op (React
compares with `Object.is` and bails out, so the `[industryId]` effect
does not re-run); a changed value runs the effect that clears
`segmentId`, `useCaseId` and `answers`, and the downstream
`[segmentId]`/`[useCaseId]` effects leave that result fixed because
the cleared `useCaseId` selects no use case. -/
def setIndustry (s : WizardState) (id : String) : WizardState :=
  if id = s.industryId then s
  else { s with industryId := id, segmentId := "", useCaseId := "", answers := [] }

/-- `setSegmentId` plus its settled effect cascade (page.tsx lines
102–105): same-value sets bail out; a change clears `useCaseId` and
`answers`. -/
def setSegment (s : WizardState) (id : String) : WizardState :=
  if id = s.segmentId then s
  else { s with segmentId := id, useCaseId := "", answers := [] }

/-- `setUseCaseId` plus its settled `[useCaseId]` effect (page.tsx
lines 107–114): same-value sets bail out; on a change, if the new id
selects a use case in the current list, the answers map is replaced
wholesale by that use case's question defaults; otherwise
(`if (!useCase) return;`) the answers map is left untouched. -/
def setUseCase (s : WizardState) (id : String) : WizardState :=
  if id = s.useCaseId then s
  else
    let s2 := { s with useCaseId := id }
    match currentUseCase s2 with
    | some uc => { s2 with answers := synthesizeDefaults uc.scope_questions }
    | none => s2

/-- `canCreate` (page.tsx lines 169–175): a JS string is truthy iff
non-empty, and `Object.values(selectedPacks).length` is the number of
registry entries. -/
def canCreate (s : WizardState) : Bool :=
  decide (s.industryId ≠ "") && decide (s.segmentId ≠ "") &&
  decide (s.useCaseId ≠ "") && decide (s.deploymentEnvironment ≠ "") &&
  decide (s.selectedLlms.length > 0) && decide (s.selectedPacks.length > 0)

/-- The submission payload built in `onCreate` (page.tsx lines
150–160); `description || null` maps the empty string to null, and
`Object.values(selectedPacks)` is the registry's entries in key
insertion order. -/
structure Payload where
  name : String
  description : Option String
  industry_id : String
  segment_id : String
  use_case_id : String
  scope_answers : List (String × AnswerValue)
  deployment_environment : String
  selected_llms : List String
  selected_packs : List SelectedPack
deriving DecidableEq, Repr

/-- Payload assembly from the current state (page.tsx lines 150–160). -/
def buildPayload (s : WizardState) : Payload :=
  { name := s.name
    description := if s.description = "" then none else some s.description
    industry_id := s.industryId
    segment_id := s.segmentId
    use_case_id := s.useCaseId
    scope_answers := s.answers
    deployment_environment := s.deploymentEnvironment
    selected_llms := s.selectedLlms
    selected_packs := s.selectedPacks.map (fun e => e.2) }

/-- A failure raised by the external `createProject` call: a JS error
value carries an optional `message` (absent and the empty string are
both falsy) and always has a string form `String(e)`. -/
structure CreationError where
  message : Option String
  stringForm : String
deriving DecidableEq, Repr

/-- The extraction `e.message || String(e)` (page.tsx line 165). -/
def errMessage (e : CreationError) : String :=
  match e.message with
  | some m => if m = "" then e.stringForm else m
  | none => e.stringForm

/-- `onCreate` (page.tsx lines 147–167), with the external
`createProject` collaborator abstracted as a function from the payload
to a result. `setErr(null)` runs first; on success the page navigates
away using the returned `project_id` (no further state change); on
failure the caught error's extracted message is stored in `err`. -/
def onCreate (s : WizardState) (create : Payload → Except CreationError String) :
    WizardState :=
  match create (buildPayload s) with
  | Except.ok _ => { s with err := none }
  | Except.error e => { s with err := some (errMessage e) }

/-- A concrete use case with the spec's example question set:
`a` is a boolean question with default `true`, `b` is a select
question with options `["x","y"]` and no default. -/
def sampleUseCase : UseCase :=
  ⟨"uc", "Fraud detection", "desc",
    [⟨"a", "Prompt a", "boolean", [], some (AnswerValue.bool true)⟩,
     ⟨"b", "Prompt b", "select", ["x", "y"], none⟩]⟩

/-- A concrete mid-session state: industry `i`, segment `sg` and use
case `uc` selected, with `uc`'s defaults synthesized into `answers`. -/
def sampleState : WizardState :=
  { industries := [⟨"i", "Finance", [⟨"sg", "Retail", [sampleUseCase]⟩]⟩]
    packs := []
    err := none
    name := "My AI System"
    description := ""
    industryId := "i"
    segmentId := "sg"
    useCaseId := "uc"
    answers := [("a", AnswerValue.bool true)]
    selectedPacks := []
    selectedLlms := []
    deploymentEnvironment := ""
    llmQuery := "" }

/-- C3 (amended): `setIndustry` with an id different from the current
one clears `segment_id` and `use_case_id` and resets the Answers map
to empty; with the already-selected id the call is a no-op (React
bails out on an identical state value, so the reset effect does not
run) and the Answers map is left as it was. -/
theorem setIndustry_cascades (s : WizardState) (id : String) :
    (id ≠ s.industryId →
      setIndustry s id =
        { s with industryId := id, segmentId := "", useCaseId := "", answers := [] }) ∧
    (id = s.industryId → setIndustry s id = s) := by
  constructor
  · intro h
    simp [setIndustry, h]
  · intro h
    simp [setIndustry, h]

/-- C3 (counterexample to the claim as stated): in a state with a
non-empty Answers map and a selected use case, calling `setIndustry`
with the id that is already selected leaves the state — including
`segment_id`, `use_case_id` and the non-empty Answers map — entirely
unchanged, instead of clearing them. -/
theorem setIndustry_same_id_counterexample :
    sampleState.answers ≠ [] ∧ currentUseCase sampleState = some sampleUseCase ∧
    setIndustry sampleState "i" = sampleState ∧
    (setIndustry sampleState "i").segmentId = "sg" ∧
    (setIndustry sampleState "i").useCaseId = "uc" ∧
    (setIndustry sampleState "i").answers ≠ [] := by decide

/-- C3 witness: the amended theorem applied at `sampleState`, once
with a fresh industry id `j` and once with the already-selected `i`. -/
theorem setIndustry_cascades_witness :
    setIndustry sampleState "j" =
      { sampleState with
          industryId := "j"
          segmentId := ""
          useCaseId := ""
          answers := [] } ∧
    setIndustry sampleState "i" = sampleState :=
  ⟨(setIndustry_cascades sampleState "j").1 (by decide),
   (setIndustry_cascades sampleState "i").2 rfl⟩

/-- C4 (amended): when the selected use case changes to an id that
selects a use case in the current list, the Answers map is replaced
wholesale by that question set's defaults — each question with a
default contributes its value, questions without a default are absent,
and no previous key survives; the spec's concrete example synthesizes
exactly `{a: true}` with key `b` absent. But when the selection
changes to an id that selects no use case (in particular to "no
selection"), the code leaves the Answers map untouched. -/
theorem setUseCase_synthesizes_defaults (s : WizardState) (id : String)
    (h : id ≠ s.useCaseId) :
    (∀ uc, (useCases s).find? (fun x => decide (x.id = id)) = some uc →
      (setUseCase s id).answers = synthesizeDefaults uc.scope_questions) ∧
    ((useCases s).find? (fun x => decide (x.id = id)) = none →
      (setUseCase s id).answers = s.answers) ∧
    (setUseCase s id).useCaseId = id ∧
    synthesizeDefaults sampleUseCase.scope_questions = [("a", AnswerValue.bool true)] ∧
    alookup (synthesizeDefaults sampleUseCase.scope_questions) "b" = none := by
  have hcur : currentUseCase { s with useCaseId := id } =
      (useCases s).find? (fun x => decide (x.id = id)) := rfl
  refine ⟨fun uc hf => ?_, fun hf => ?_, ?_, by decide, by decide⟩
  · simp [setUseCase, h, hcur, hf]
  · simp [setUseCase, h, hcur, hf]
  · simp only [setUseCase, h, if_false]
    cases hc : currentUseCase { s with useCaseId := id } <;> simp [hc]

/-- C4 (counterexample to the claim as stated): changing the selected
use case from `uc` to no selection does not reset the Answers map to
the (empty) defaults of no question set — the previous use case's
answers survive untouched. -/
theorem setUseCase_to_none_counterexample :
    currentUseCase sampleState = some sampleUseCase ∧
    (setUseCase sampleState "").useCaseId = "" ∧
    currentUseCase (setUseCase sampleState "") = none ∧
    (setUseCase sampleState "").answers = [("a", AnswerValue.bool true)] ∧
    (setUseCase sampleState "").answers ≠ [] := by decide

/-- C4 witness: the amended theorem applied concretely — selecting
`uc` from a cleared state synthesizes its defaults, and selecting an
unknown id leaves the answers unchanged. -/
theorem setUseCase_synthesizes_defaults_witness :
    (setUseCase { sampleState with useCaseId := "", answers := [] } "uc").answers =
      synthesizeDefaults sampleUseCase.scope_questions ∧
    (setUseCase sampleState "zzz").answers = sampleState.answers :=
  ⟨(setUseCase_synthesizes_defaults { sampleState with useCaseId := "", answers := [] }
      "uc" (by decide)).1 sampleUseCase (by decide),
   (setUseCase_synthesizes_defaults sampleState "zzz" (by decide)).2.1 (by decide)⟩

/-- C5: readiness is exactly the conjunction of the six conditions —
non-empty industry, segment, use case and deployment environment, at
least one selected model, at least one selected pack — and with the
first five satisfied and zero packs, readiness is false while toggling
in exactly one pack makes it true. -/
theorem canCreate_iff_six_conditions :
    (∀ s : WizardState, canCreate s = true ↔
      (s.industryId ≠ "" ∧ s.segmentId ≠ "" ∧ s.useCaseId ≠ "" ∧
        s.deploymentEnvironment ≠ "" ∧ s.selectedLlms ≠ [] ∧
        s.selectedPacks ≠ [])) ∧
    (∀ s : WizardState, s.industryId ≠ "" → s.segmentId ≠ "" → s.useCaseId ≠ "" →
      s.deploymentEnvironment ≠ "" → s.selectedLlms ≠ [] →
      s.selectedPacks = [] →
      canCreate s = false ∧
        ∀ domain pack_id versions,
          canCreate { s with
            selectedPacks := togglePack s.selectedPacks domain pack_id versions } = true) := by
  constructor
  · intro s
    simp only [canCreate, Bool.and_eq_true, decide_eq_true_eq, List.length_pos]
    tauto
  · intro s h1 h2 h3 h4 h5 hp
    constructor
    · simp [canCreate, hp]
    · intro domain pack_id versions
      have ht : togglePack s.selectedPacks domain pack_id versions =
          [(packKey domain pack_id,
            ⟨domain, pack_id, latestVersion versions⟩)] := by
        rw [hp]
        rfl
      simp [canCreate, ht, h1, h2, h3, h4, h5, List.length_pos]

/-- C5 witness: a concrete state with industry, segment, use case and
deployment environment set and one model selected but no packs is not
ready, and toggling in a single pack flips readiness to true. -/
theorem canCreate_iff_six_conditions_witness :
    canCreate { sampleState with
        deploymentEnvironment := "AWS Native"
        selectedLlms := ["GPT-X"] } = false ∧
    canCreate { { sampleState with
        deploymentEnvironment := "AWS Native"
        selectedLlms := ["GPT-X"] } with
      selectedPacks := togglePack ({ sampleState with
          deploymentEnvironment := "AWS Native"
          selectedLlms := ["GPT-X"] } : WizardState).selectedPacks
        "security" "p1" ["1.0"] } = true :=
  ⟨((canCreate_iff_six_conditions).2 { sampleState with
        deploymentEnvironment := "AWS Native"
        selectedLlms := ["GPT-X"] }
      (by decide) (by decide) (by decide) (by decide) (by decide) rfl).1,
   ((canCreate_iff_six_conditions).2 { sampleState with
        deploymentEnvironment := "AWS Native"
        selectedLlms := ["GPT-X"] }
      (by decide) (by decide) (by decide) (by decide) (by decide) rfl).2
     "security" "p1" ["1.0"]⟩

/-- C8: when the project-creation call fails, the engine records only
the extracted human-readable message — the failure's (non-empty)
message, or its string form when no message is present (absent or
empty, both JS-falsy) — and makes no other state change: the resulting
state is exactly the prior state with `err` updated, so the
industry/segment/use-case selection, the Answers map, the selected
models, the selected packs and the deployment environment are all as
they were before the submission attempt. -/
theorem onCreate_failure_preserves_state (s : WizardState)
    (create : Payload → Except CreationError String) (e : CreationError)
    (h : create (buildPayload s) = Except.error e) :
    onCreate s create = { s with err := some (errMessage e) } ∧
    (∀ m, e.message = some m → m ≠ "" → errMessage e = m) ∧
    (e.message = none ∨ e.message = some "" → errMessage e = e.stringForm) ∧
    (onCreate s create).industryId = s.industryId ∧
    (onCreate s create).segmentId = s.segmentId ∧
    (onCreate s create).useCaseId = s.useCaseId ∧
    (onCreate s create).answers = s.answers ∧
    (onCreate s create).selectedLlms = s.selectedLlms ∧
    (onCreate s create).selectedPacks = s.selectedPacks ∧
    (onCreate s create).deploymentEnvironment = s.deploymentEnvironment := by
  have h1 : onCreate s create = { s with err := some (errMessage e) } := by
    simp [onCreate, h]
  refine ⟨h1, ?_, ?_, by simp [h1], by simp [h1], by simp [h1], by simp [h1],
    by simp [h1], by simp [h1], by simp [h1]⟩
  · intro m hm hne
    simp [errMessage, hm, hne]
  · rintro (hm | hm) <;> simp [errMessage, hm]

/-- C8 witness: a failing creation call with message `"boom"` leaves a
concrete populated state unchanged except for `err := some "boom"`. -/
theorem onCreate_failure_preserves_state_witness :
    onCreate sampleState (fun _ => Except.error ⟨some "boom", "Error: boom"⟩) =
      { sampleState with err := some "boom" } := by
  have h := (onCreate_failure_preserves_state sampleState
    (fun _ => Except.error ⟨some "boom", "Error: boom"⟩)
    ⟨some "boom", "Error: boom"⟩ rfl).1
  rw [h]
  decide

/-- ASCII lowercasing of one character, modelling JS `toLowerCase` on
the ASCII catalog text in scope. -/
def jsToLowerChar (c : Char) : Char :=
  if 'A' ≤ c ∧ c ≤ 'Z' then Char.ofNat (c.toNat + 32) else c

/-- JS `String.prototype.toLowerCase`, character-wise. -/
def jsToLower (s : String) : String := ⟨s.data.map jsToLowerChar⟩

/-- The whitespace characters stripped by JS `trim` (ASCII range). -/
def jsIsWhitespace (c : Char) : Bool :=
  c = ' ' || c = '\t' || c = '\n' || c = '\r'

/-- JS `String.prototype.trim`: strip leading and trailing whitespace. -/
def jsTrim (s : String) : String :=
  ⟨((s.data.dropWhile jsIsWhitespace).reverse.dropWhile jsIsWhitespace).reverse⟩

/-- JS `String.prototype.includes`: `sub` occurs contiguously in `s`. -/
def includes (s sub : String) : Bool := decide (sub.data <:+: s.data)

/-- `LlmModel` catalog entry (spec §3); the static catalog itself
lives in `config/llms`, outside the page, so the filter is modelled as
a function of the catalog it closes over. -/
structure Llm where
  model : String
  developer : String
  popularityTier : String
  mainDriver : String
  rank : Nat
deriving DecidableEq, Repr

/-- The per-entry predicate of the `filteredLlms` memo: the (already
trimmed and lowercased) query occurs in the lowercased `model`,
`developer`, `popularityTier` or `mainDriver` field. -/
def llmMatches (q : String) (llm : Llm) : Bool :=
  includes (jsToLower llm.model) q || includes (jsToLower llm.developer) q ||
  includes (jsToLower llm.popularityTier) q || includes (jsToLower llm.mainDriver) q

/-- `filteredLlms` (page.tsx lines 82–93): trim and lowercase the
query; if the result is empty (JS falsy) return the catalog unchanged,
otherwise keep the entries matching on one of the four fields. -/
def filteredLlms (llmQuery : String) (catalog : List Llm) : List Llm :=
  let q := jsToLower (jsTrim llmQuery)
  if q = "" then catalog
  else catalog.filter (llmMatches q)

/-- C7: for every query and catalog, the model filter returns the
order-preserving subsequence (a sublist, and exactly the `filter`) of
catalog entries whose lowercased `model`, `developer`,
`popularityTier` or `mainDriver` contains the lowercased trimmed query
as a substring; an empty or whitespace-only query — one that trims to
`""` — returns the entire catalog unchanged in its original order. -/
theorem filteredLlms_filters_by_substring :
    (∀ q catalog, (filteredLlms q catalog).Sublist catalog) ∧
    (∀ q catalog, jsTrim q = "" → filteredLlms q catalog = catalog) ∧
    (∀ q catalog, filteredLlms q catalog =
      catalog.filter (llmMatches (jsToLower (jsTrim q)))) ∧
    (∀ q catalog llm, llm ∈ filteredLlms q catalog ↔
      llm ∈ catalog ∧ llmMatches (jsToLower (jsTrim q)) llm = true) := by
  have hmatch : ∀ llm, llmMatches "" llm = true := by
    intro llm
    simp [llmMatches, includes]
  have h3 : ∀ q catalog, filteredLlms q catalog =
      catalog.filter (llmMatches (jsToLower (jsTrim q))) := by
    intro q catalog
    by_cases hq : jsToLower (jsTrim q) = ""
    · rw [hq]
      simp only [filteredLlms, hq, if_true]
      exact (List.filter_eq_self.mpr (fun a _ => hmatch a)).symm
    · simp [filteredLlms, hq]
  refine ⟨fun q catalog => ?_, fun q catalog hq => ?_, h3, fun q catalog llm => ?_⟩
  · rw [h3]
    exact List.filter_sublist catalog
  · have hq2 : jsToLower (jsTrim q) = "" := by
      rw [hq]
      rfl
    simp [filteredLlms, hq2]
  · rw [h3]
    simp [List.mem_filter]

/-- C7 witness: a whitespace-only query returns the two-entry catalog
unchanged, and the membership characterization applied at the query
`" OpenAI "`. -/
theorem filteredLlms_filters_by_substring_witness :
    filteredLlms "  " [⟨"GPT-X", "OpenAI", "High", "Chat", 1⟩,
        ⟨"Claude-Y", "Anthropic", "High", "Coding", 2⟩] =
      [⟨"GPT-X", "OpenAI", "High", "Chat", 1⟩,
       ⟨"Claude-Y", "Anthropic", "High", "Coding", 2⟩] ∧
    ((⟨"GPT-X", "OpenAI", "High", "Chat", 1⟩ : Llm) ∈
        filteredLlms " OpenAI " [⟨"GPT-X", "OpenAI", "High", "Chat", 1⟩,
          ⟨"Claude-Y", "Anthropic", "High", "Coding", 2⟩] ↔
      (⟨"GPT-X", "OpenAI", "High", "Chat", 1⟩ : Llm) ∈
          [⟨"GPT-X", "OpenAI", "High", "Chat", 1⟩,
           ⟨"Claude-Y", "Anthropic", "High", "Coding", 2⟩] ∧
        llmMatches (jsToLower (jsTrim " OpenAI "))
          ⟨"GPT-X", "OpenAI", "High", "Chat", 1⟩ = true) :=
  ⟨filteredLlms_filters_by_substring.2.1 "  "
      [⟨"GPT-X", "OpenAI", "High", "Chat", 1⟩,
       ⟨"Claude-Y", "Anthropic", "High", "Coding", 2⟩] rfl,
   filteredLlms_filters_by_substring.2.2.2 " OpenAI "
      [⟨"GPT-X", "OpenAI", "High", "Chat", 1⟩,
       ⟨"Claude-Y", "Anthropic", "High", "Coding", 2⟩]
      ⟨"GPT-X", "OpenAI", "High", "Chat", 1⟩⟩
